import Mathlib

/-!
Shallow embedding of `tournament.py` (turtlegraphics/tournament): a
multi-round knockout tournament manager with byes, ELO rating updates,
fold pairing, and round advancement.

Modelling conventions:
* Python floats are modelled as real numbers (`ℝ`).
* Album identity is by name (the program relies on object identity and
  unique album names); the mutable `album.rating` attribute is modelled
  as a tournament-level map `String → ℝ` keyed by album name, so that
  rating mutation through shared references is captured faithfully.
* Python `assert` failures and crashes (AttributeError on `None`,
  IndexError) are modelled as `Except.error` with a name from the
  spec's error taxonomy.
* `list.sort(key=...)` (a stable sort) is modelled by
  `List.insertionSort`, which is stable.
* `random.choice` in `pickMatchup` is modelled by an explicit injected
  index `k`, choosing among the pending matches.
-/

namespace Tourney

/-- Error taxonomy: names from the specification for each way the
Python code can abort (assert failure, `None` dereference, index out
of range). `AlreadyResolved` appears in the taxonomy but, as the
theorems below show, no code path of `Match.setWinner` produces it. -/
inductive Err where
  | SizeMismatch
  | AlreadyPaired
  | AlreadyResolved
  | InvalidWinner
  | NoSuchMatch
  | TournamentComplete
  | SeedNameMismatch
  | NotFinished
  | NotInProgress
  | IndexError
  | NoneTypeError
  | ParityError
deriving DecidableEq, Repr

/-- Source `class Album`: a competitor with a name and a seed (assigned at
`Tournament.seed` time; `0` models the unset attribute). The mutable
`rating` attribute lives in the tournament-level ratings map. -/
structure Album where
  name : String
  seed : Nat
deriving DecidableEq, Repr, Inhabited

/-- Source `ELO_Rater.rate`: given ratings of winner `x` and loser `y` and the
rater parameters, return the pair of new ratings. -/
noncomputable def eloRate (spread speed x y : ℝ) : ℝ × ℝ :=
  let qx : ℝ := (2 : ℝ) ^ (x / spread)
  let qy : ℝ := (2 : ℝ) ^ (y / spread)
  let Ex : ℝ := qx / (qx + qy)
  let Ey : ℝ := qy / (qx + qy)
  (x + speed * (1 - Ex), y + speed * (0 - Ey))

/-- The simultaneous assignment
`(winner.rating, loser.rating) = ELO.rate(...)`, as an update of the
ratings map (loser written after winner, as in Python's left-to-right
tuple assignment). -/
noncomputable def updateRatings (rt : String → ℝ) (wName lName : String)
    (nw nl : ℝ) : String → ℝ :=
  fun n => if n = lName then nl else if n = wName then nw else rt n

/-- Source `class Match`: entry `a` vs. entry `b`; `b = none` is a bye. -/
structure Match where
  a : Album
  b : Option Album
  winner : Option Album
  loser : Option Album
deriving DecidableEq, Repr, Inhabited

/-- Source `Match.__init__`: winner starts unset unless `b` is `None`, in which
case `a` immediately wins the bye. -/
def Match.create (a : Album) (b : Option Album) : Match :=
  { a := a, b := b, winner := if b.isNone then some a else none, loser := none }

/-- Source `Match.isMatch`: true iff this is a match between `t1` and `t2`. -/
def Match.isMatch (m : Match) (t1 t2 : Album) : Bool :=
  (m.a == t1 && m.b == some t2) || (m.a == t2 && m.b == some t1)

/-- The entrants taking part in a match (one for a bye, two otherwise). -/
def Match.members (m : Match) : List Album :=
  m.a :: m.b.toList

/-- Source `Match.setWinner`: sets winner/loser, then overwrites both entrants'
ratings with `ELO.rate(winner.rating, loser.rating)`. The `assert
winner == self.b` is `InvalidWinner`; on a bye (`loser = None`) the
rating update dereferences `None` (`NoneTypeError`). There is no
already-resolved guard in the source. -/
noncomputable def Match.setWinner (m : Match) (spread speed : ℝ) (w : Album)
    (rt : String → ℝ) : Except Err (Match × (String → ℝ)) :=
  if w = m.a then
    match m.b with
    | some b' =>
      let p := eloRate spread speed (rt m.a.name) (rt b'.name)
      .ok ({ m with winner := some m.a, loser := m.b },
           updateRatings rt m.a.name b'.name p.1 p.2)
    | none => .error .NoneTypeError
  else if m.b = some w then
    let p := eloRate spread speed (rt w.name) (rt m.a.name)
    .ok ({ m with winner := m.b, loser := some m.a },
         updateRatings rt w.name m.a.name p.1 p.2)
  else .error .InvalidWinner

/-- Source `class Round`: a named, fixed-size collection of matches. -/
structure Round where
  name : String
  size : Nat
  byes : Nat
  matchups : List Match
  paired : Bool
deriving DecidableEq, Repr, Inhabited

/-- Source `Round.__init__`: asserts `(numentries - byes) % 2 == 0`
(computed over the integers, as in Python). -/
def Round.create (name : String) (numentries byes : Nat) : Except Err Round :=
  if ((numentries : Int) - (byes : Int)) % 2 = 0 then
    .ok { name := name, size := numentries, byes := byes, matchups := [], paired := false }
  else .error .ParityError

/-- Source `entries.sort(key=Album.getSeed)`: stable sort by ascending seed. -/
def sortBySeed (l : List Album) : List Album :=
  List.insertionSort (fun x y : Album => x.seed ≤ y.seed) l

/-- Source `Round.pair`: fills out the round. Sorts by seed when there are byes
(unless overridden by `sortArg`), gives the first `byes` entrants solo
bye matches, and fold-pairs the rest: position `byes + i` against
position `size - i - 1`. Returns the (possibly sorted) entrant list as
well, because Python sorts the caller's list in place. -/
def Round.pair (r : Round) (entries : List Album) (sortArg : Option Bool) :
    Except Err (List Album × Round) :=
  if r.paired then .error .AlreadyPaired
  else if entries.length ≠ r.size then .error .SizeMismatch
  else
    let doSort := sortArg.getD (decide (0 < r.byes))
    let es := if doSort then sortBySeed entries else entries
    let half := (r.size - r.byes) / 2
    let byeMatches := (List.range r.byes).map fun i =>
      Match.create (es.getD i default) none
    let foldMatches := (List.range half).map fun i =>
      Match.create (es.getD (r.byes + i) default)
        (some (es.getD (r.size - i - 1) default))
    .ok (es, { r with matchups := r.matchups ++ (byeMatches ++ foldMatches),
                      paired := true })

/-- Source `Round.isFinished`: paired and every match has a winner. -/
def Round.isFinished (r : Round) : Bool :=
  r.paired && r.matchups.all fun m => m.winner.isSome

/-- Source `Round.pickMatchup`: asserts paired and unfinished, then returns a
pending match (`random.choice` modelled by the injected index `k`). -/
def Round.pickMatchup (r : Round) (k : Nat) : Except Err Match :=
  if r.paired && !r.isFinished then
    let pending := r.matchups.filter fun m => m.winner.isNone
    .ok (pending.getD (k % pending.length) default)
  else .error .NotInProgress

/-- Source `Round.match`: the match between albums `x` and `y`, if any. -/
def Round.findMatch (r : Round) (x y : Album) : Option Match :=
  r.matchups.find? fun m => m.isMatch x y

/-- Source `Round.winners`: the winners, in match order (byes included). -/
def Round.winners (r : Round) : List Album :=
  r.matchups.filterMap fun m => m.winner

/-- Source `class Tournament`: albums, rounds, current round index, completion
flag, plus the (per-tournament, set before play) ELO parameters of the
global `ELO` rater and the ratings map modelling the albums' mutable
`rating` attributes. -/
structure Tournament where
  name : String
  albums : List Album
  ratings : String → ℝ
  rounds : List Round
  currentRound : Nat
  complete : Bool
  spread : ℝ
  speed : ℝ

instance : Inhabited Tournament :=
  ⟨{ name := "", albums := [], ratings := fun _ => 0, rounds := [],
     currentRound := 0, complete := false, spread := 1, speed := 1 }⟩

/-- Source `Tournament.__init__` (with the default `ELO_Rater` parameters
`spread=1.0`, `speed=.2`). -/
noncomputable def Tournament.init : Tournament :=
  { name := "", albums := [], ratings := fun _ => 0, rounds := [],
    currentRound := 0, complete := false, spread := 1, speed := 0.2 }

/-- Source `Tournament.setName`. -/
def Tournament.setName (t : Tournament) (n : String) : Tournament :=
  { t with name := n }

/-- Source `ELO.set_parameters` from the optional `:rate` record, read before
any album or result. -/
def Tournament.setParameters (t : Tournament) (sp sd : ℝ) : Tournament :=
  { t with spread := sp, speed := sd }

/-- Source `Tournament.addAlbum`: `Album(name, rating)` has no seed yet
(modelled as seed `0`); its `rating` attribute enters the ratings map. -/
def Tournament.addAlbum (t : Tournament) (n : String) (rating : ℝ) : Tournament :=
  { t with albums := t.albums ++ [⟨n, 0⟩],
           ratings := fun s => if s = n then rating else t.ratings s }

/-- Source `Tournament.addRound`. -/
def Tournament.addRound (t : Tournament) (rn : String) (re rb : Nat) :
    Except Err Tournament :=
  match Round.create rn re rb with
  | .ok r => .ok { t with rounds := t.rounds ++ [r] }
  | .error e => .error e

/-- The seed-assignment loop of `Tournament.seed`:
`i = 1; for a in albums: a.setSeed(i); i += 1`. -/
def assignSeeds : Nat → List Album → List Album
  | _, [] => []
  | i, a :: rest => { a with seed := i } :: assignSeeds (i + 1) rest

/-- Source `Tournament.beginRound`: set up matches for the current round. At or
past the last round, mark the tournament complete. Round 0 is paired
from `self.albums` (and, because `pair` sorts the caller's list in
place, the sorted list is stored back); later rounds assert the
previous round is finished and are paired from its winners. -/
def Tournament.beginRound (t : Tournament) : Except Err Tournament :=
  if t.rounds.length ≤ t.currentRound then .ok { t with complete := true }
  else
    let c := t.currentRound
    let prev : Except Err (List Album) :=
      if c = 0 then .ok t.albums
      else if (t.rounds.getD (c - 1) default).isFinished then
        .ok (t.rounds.getD (c - 1) default).winners
      else .error .NotFinished
    match prev with
    | .error e => .error e
    | .ok entries =>
      match (t.rounds.getD c default).pair entries none with
      | .error e => .error e
      | .ok (es, r') =>
        .ok { t with rounds := t.rounds.set c r',
                     albums := if c = 0 then es else t.albums }

/-- Source `Tournament.seed`: sort albums by rating, best first (stable),
assign seeds `1..N`, set the current round to `0` and pair it. -/
noncomputable def Tournament.seed (t : Tournament) : Except Err Tournament :=
  let sorted := List.insertionSort
    (fun x y : Album => t.ratings y.name ≤ t.ratings x.name) t.albums
  let seeded := assignSeeds 1 sorted
  Tournament.beginRound { t with albums := seeded, currentRound := 0 }

/-- Source `Tournament.addResult`: find the match between `winner` and `loser`
in the current round (mutating the found match in place, modelled by
`List.set` at its index), resolve it, and advance to the next round if
the current one is now finished. Indexing `self.rounds[currentRound]`
out of range (the post-completion state) is the `TournamentComplete`
failure. A missing match crashes on `None` (`NoSuchMatch`). -/
noncomputable def Tournament.addResult (t : Tournament) (winner loser : Album) :
    Except Err Tournament :=
  if t.currentRound < t.rounds.length then
    let r := t.rounds.getD t.currentRound default
    match r.matchups.findIdx? (fun m => m.isMatch winner loser) with
    | none => .error .NoSuchMatch
    | some idx =>
      match (r.matchups.getD idx default).setWinner t.spread t.speed winner t.ratings with
      | .error e => .error e
      | .ok (m', ratings') =>
        let r' := { r with matchups := r.matchups.set idx m' }
        let t' := { t with rounds := t.rounds.set t.currentRound r',
                           ratings := ratings' }
        if r'.isFinished then
          Tournament.beginRound { t' with currentRound := t.currentRound + 1 }
        else .ok t'
  else .error .TournamentComplete

/-- Source `Tournament.pickMatchup`: `None` once complete, otherwise delegate
to the current round. -/
def Tournament.pickMatchup (t : Tournament) (k : Nat) : Except Err (Option Match) :=
  if t.complete then .ok none
  else if t.currentRound < t.rounds.length then
    match (t.rounds.getD t.currentRound default).pickMatchup k with
    | .ok m => .ok (some m)
    | .error e => .error e
  else .error .IndexError

/-- Source `Tournament.findAlbum`: `self.albums[seed-1]`, asserting the stored
seed and name match the reference (both assert failures are the
`SeedNameMismatch` of the taxonomy). Seeds are 1-based in the record
format. -/
def Tournament.findAlbum (t : Tournament) (n : String) (s : Nat) : Except Err Album :=
  if s - 1 < t.albums.length then
    let a := t.albums.getD (s - 1) default
    if a.seed = s then
      if a.name = n then .ok a else .error .SeedNameMismatch
    else .error .SeedNameMismatch
  else .error .IndexError

/-- States built by the registration phase (`Parser.parse` before
`tour.seed()`): albums and rounds added in any order to a fresh
tournament, the name set, the rater parameters possibly set. -/
inductive Registered : Tournament → Prop where
  | init : Registered Tournament.init
  | addAlbum {t : Tournament} (n : String) (x : ℝ) :
      Registered t → Registered (t.addAlbum n x)
  | addRound {t t' : Tournament} (rn : String) (re rb : Nat) :
      Registered t → t.addRound rn re rb = .ok t' → Registered t'
  | setName {t : Tournament} (n : String) :
      Registered t → Registered (t.setName n)
  | setParameters {t : Tournament} (sp sd : ℝ) :
      Registered t → Registered (t.setParameters sp sd)

/-- Tournament states reachable in the program: a registered tournament
that was seeded successfully, followed by any number of successfully
recorded results. -/
inductive Reachable : Tournament → Prop where
  | seeded {t0 st : Tournament} :
      Registered t0 → t0.seed = .ok st → Reachable st
  | step {st st' : Tournament} (w l : Album) :
      Reachable st → st.addResult w l = .ok st' → Reachable st'

/-- The rating-update formula as written in the specification:
`qW = 2^(w/spread)`, `qL = 2^(l/spread)`, expected scores
`E = q/(qW+qL)`, and `new = old + speed*(outcome - E)`. -/
noncomputable def eloFormula (spread speed w l : ℝ) : Prop :=
  eloRate spread speed w l =
    (w + speed * (1 - (2 : ℝ) ^ (w / spread) /
        ((2 : ℝ) ^ (w / spread) + (2 : ℝ) ^ (l / spread))),
     l + speed * (0 - (2 : ℝ) ^ (l / spread) /
        ((2 : ℝ) ^ (w / spread) + (2 : ℝ) ^ (l / spread))))

/-- What the specification promises of `Round.pair` on a valid round:
with `es` the entrant list in the chosen order, the match list is
exactly `byes` bye matches for positions `0 .. byes-1`, followed by
`(size-byes)/2` fold matches pairing position `byes + i` against
position `size - i - 1`, and every supplied entrant appears in exactly
one match (the concatenated match members are a permutation of the
supplied entrants). -/
def PairSpec (r : Round) (entries : List Album) (sortArg : Option Bool) : Prop :=
  let es := if sortArg.getD (decide (0 < r.byes)) then sortBySeed entries else entries
  let half := (r.size - r.byes) / 2
  ∃ r' : Round,
    r.pair entries sortArg = .ok (es, r') ∧
    r'.matchups.length = r.byes + half ∧
    (∀ i, i < r.byes →
      r'.matchups.getD i default = Match.create (es.getD i default) none) ∧
    (∀ i, i < half →
      r'.matchups.getD (r.byes + i) default =
        Match.create (es.getD (r.byes + i) default)
          (some (es.getD (r.size - i - 1) default))) ∧
    (r'.matchups.flatMap Match.members).Perm entries

/-- The specification's invariant on the tournament album list from the
moment `seed()` returns: the album at index `i` holds seed `i + 1`. -/
def SeededByPosition (l : List Album) : Prop :=
  ∀ i, i < l.length → (l.getD i default).seed = i + 1

/-- What the specification promises of one successful `addResult`
transition: with `c` the round index at which the result was recorded
and `R` that round after the match resolved, no advancement happens
while `R` is unfinished; once `R` is finished the index advances, the
next round (when one exists) is paired from `R`'s winners list (which
has one winner per match, byes included), and when `R` was the last
round the tournament becomes complete. -/
def AdvanceSpec (t t' : Tournament) : Prop :=
  let c := t.currentRound
  let R := t'.rounds.getD c default
  (R.isFinished = false →
    t'.currentRound = c ∧ t'.complete = t.complete ∧ t'.albums = t.albums ∧
    (∀ j, j ≠ c → t'.rounds.getD j default = t.rounds.getD j default)) ∧
  (R.isFinished = true →
    t'.currentRound = c + 1 ∧
    (t.rounds.length ≤ c + 1 → t'.complete = true) ∧
    (c + 1 < t.rounds.length →
      t'.complete = t.complete ∧
      R.winners.length = R.matchups.length ∧
      ∃ es R2, (t.rounds.getD (c + 1) default).pair R.winners none = .ok (es, R2) ∧
        t'.rounds.getD (c + 1) default = R2))

/-! ### Concrete states used by the witnesses -/

/-- Concrete albums (post-seeding) used in witnesses. -/
def albumA : Album := ⟨"Abbey Road", 1⟩

def albumB : Album := ⟨"Blue", 2⟩

def albumC : Album := ⟨"Clouds", 3⟩

def albumD : Album := ⟨"Dummy", 4⟩

def albumE : Album := ⟨"Eden", 5⟩

/-- An unpaired round of size 4 with 2 byes. -/
def roundW1 : Round := ⟨"quarter", 4, 2, [], false⟩

/-- Entrants for `roundW1` in scrambled seed order. -/
def entriesW1 : List Album := [albumC, albumA, albumD, albumB]

/-- An unpaired round of size 1 with 1 bye. -/
def roundBye1 : Round := ⟨"final", 1, 1, [], false⟩

/-- A tournament about to pair `roundBye1` as round 0. -/
noncomputable def tW6 : Tournament :=
  { name := "w", albums := [albumA], ratings := fun _ => 1000,
    rounds := [roundBye1], currentRound := 0, complete := false,
    spread := 1, speed := 1 }

/-- The result of `tW6.beginRound`. -/
noncomputable def tW6' : Tournament := tW6.beginRound.toOption.getD default

/-- A non-bye match between `albumA` and `albumB` that is already
resolved (winner and loser set). -/
def mResolved : Match := ⟨albumA, some albumB, some albumA, some albumB⟩

/-- A concrete ratings map. -/
noncomputable def ratW : String → ℝ := fun _ => 1000

/-- A registered tournament: one album, one size-1/bye-1 round. -/
noncomputable def tReg10 : Tournament :=
  ((Tournament.init.addAlbum "Abbey Road" 1000).addRound "final" 1 1).toOption.getD default

/-- State `tReg10` after seeding (round 0 paired, bye resolved). -/
noncomputable def tW10 : Tournament := tReg10.seed.toOption.getD default

/-- A registered tournament with one album and no rounds. -/
noncomputable def tRegC : Tournament := Tournament.init.addAlbum "Blue" 900

/-- State `tRegC` after seeding: immediately complete (no rounds to play). -/
noncomputable def tCW : Tournament := tRegC.seed.toOption.getD default

/-- The one pending match of the mid-play tournament `tPlay`. -/
def matchAB : Match := Match.create albumA (some albumB)

/-- A paired round of size 2 holding the pending `matchAB`. -/
def round0W : Round := ⟨"semifinal", 2, 0, [matchAB], true⟩

/-- The not-yet-paired follow-up round of size 1 with 1 bye. -/
def round1W : Round := ⟨"final", 1, 1, [], false⟩

/-- A tournament in mid-play: round 0 pending, round 1 not paired. -/
noncomputable def tPlay : Tournament :=
  { name := "w2", albums := [albumA, albumB], ratings := fun _ => 1000,
    rounds := [round0W, round1W], currentRound := 0, complete := false,
    spread := 1, speed := 1 }

/-- State `tPlay` after recording that `albumA` beat `albumB`. -/
noncomputable def tPlay' : Tournament :=
  (tPlay.addResult albumA albumB).toOption.getD default

/-! ### General list lemmas -/

theorem map_getD_range_eq_take {α : Type} (l : List α) (d : α) (k : Nat)
    (hk : k ≤ l.length) :
    (List.range k).map (fun i => l.getD i d) = l.take k := by
  apply List.ext_getElem
  · simp [List.length_take]
    omega
  · intro i h1 h2
    have hi : i < k := by simpa using h1
    have hil : i < l.length := lt_of_lt_of_le hi hk
    simp only [List.getElem_map, List.getElem_range, List.getElem_take]
    exact List.getD_eq_getElem l d hil

theorem map_getD_range_add {α : Type} (l : List α) (d : α) (b k : Nat)
    (hk : b + k ≤ l.length) :
    (List.range k).map (fun i => l.getD (b + i) d) = (l.drop b).take k := by
  apply List.ext_getElem
  · simp [List.length_take, List.length_drop]
    omega
  · intro i h1 h2
    have hi : i < k := by simpa using h1
    have hil : b + i < l.length := by omega
    simp only [List.getElem_map, List.getElem_range, List.getElem_take,
      List.getElem_drop]
    exact List.getD_eq_getElem l d hil

theorem map_getD_range_rev {α : Type} (l : List α) (d : α) (b k s : Nat)
    (hl : l.length = s) (hs : s = b + 2 * k) :
    (List.range k).map (fun i => l.getD (s - i - 1) d) = (l.drop (b + k)).reverse := by
  apply List.ext_getElem
  · simp [List.length_drop]
    omega
  · intro i h1 h2
    have hi : i < k := by simpa using h1
    have hil : s - i - 1 < l.length := by omega
    simp only [List.getElem_map, List.getElem_range, List.getElem_reverse,
      List.getElem_drop, List.length_reverse, List.length_drop]
    rw [List.getD_eq_getElem l d hil]
    congr 1
    omega

theorem flatMap_single {α β : Type} (l : List β) (f : β → α) :
    (l.flatMap fun x => [f x]) = l.map f := by
  induction l with
  | nil => rfl
  | cons x xs ih => simp only [List.flatMap_cons, List.map_cons, ih]; rfl

theorem flatMap_pair_perm {α : Type} (n : Nat) (f g : Nat → α) :
    ((List.range n).flatMap fun i => [f i, g i]).Perm
      ((List.range n).map f ++ (List.range n).map g) := by
  induction n with
  | zero => simp
  | succ n ih =>
    rw [List.range_succ]
    simp only [List.flatMap_append, List.map_append, List.flatMap_cons,
      List.flatMap_nil, List.map_cons, List.map_nil, List.append_nil]
    refine List.Perm.trans (ih.append_right _) ?_
    simp only [List.append_assoc]
    refine List.Perm.append_left _ ?_
    have h1 : ([f n, g n] : List α) = [f n] ++ [g n] := rfl
    rw [h1, ← List.append_assoc]
    have h2 : ([f n] ++ ((List.range n).map g ++ [g n])) =
        ([f n] ++ (List.range n).map g) ++ [g n] := by
      rw [List.append_assoc]
    rw [h2]
    exact List.perm_append_comm.append_right _

theorem length_filterMap_isSome {α β : Type} (p : α → Option β) (l : List α)
    (h : ∀ m ∈ l, (p m).isSome) : (l.filterMap p).length = l.length := by
  induction l with
  | nil => rfl
  | cons x xs ih =>
    have hx := h x (by simp)
    obtain ⟨y, hy⟩ := Option.isSome_iff_exists.mp hx
    rw [List.filterMap_cons, hy]
    simp only [List.length_cons]
    rw [ih fun m hm => h m (by simp [hm])]

theorem getD_set_eq {α : Type} (l : List α) (i : Nat) (a d : α) (h : i < l.length) :
    (l.set i a).getD i d = a := by
  rw [List.getD_eq_getElem?_getD, List.getElem?_set_self h]
  rfl

theorem getD_set_ne {α : Type} (l : List α) (i j : Nat) (a d : α) (h : i ≠ j) :
    (l.set i a).getD j d = l.getD j d := by
  rw [List.getD_eq_getElem?_getD, List.getElem?_set_ne h, ← List.getD_eq_getElem?_getD]

/-! ### Invariant lemmas -/

theorem assignSeeds_length (k : Nat) (l : List Album) :
    (assignSeeds k l).length = l.length := by
  induction l generalizing k with
  | nil => rfl
  | cons a rest ih => simp [assignSeeds, ih]

theorem assignSeeds_getD (k : Nat) (l : List Album) (i : Nat) (hi : i < l.length) :
    ((assignSeeds k l).getD i default).seed = k + i := by
  induction l generalizing k i with
  | nil => simp at hi
  | cons a rest ih =>
    cases i with
    | zero => simp [assignSeeds]
    | succ n =>
      have hn : n < rest.length := by simpa using Nat.lt_of_succ_lt_succ hi
      have := ih (k + 1) n hn
      rw [assignSeeds, List.getD_cons_succ, this]
      omega

theorem seededByPosition_assignSeeds (l : List Album) :
    SeededByPosition (assignSeeds 1 l) := by
  intro i hi
  rw [assignSeeds_length] at hi
  rw [assignSeeds_getD 1 l i hi]
  omega

theorem sortBySeed_of_seeded {l : List Album} (h : SeededByPosition l) :
    sortBySeed l = l := by
  unfold sortBySeed
  apply List.Sorted.insertionSort_eq
  refine List.pairwise_iff_getElem.mpr ?_
  intro i j hi hj hij
  have h1 := h i hi
  have h2 := h j hj
  rw [List.getD_eq_getElem _ _ hi] at h1
  rw [List.getD_eq_getElem _ _ hj] at h2
  omega

theorem pair_entries_cases {r : Round} {entries es : List Album} {r' : Round}
    {s : Option Bool} (h : r.pair entries s = .ok (es, r')) :
    es = entries ∨ es = sortBySeed entries := by
  rw [Round.pair] at h
  split at h
  · exact absurd h (by simp)
  · split at h
    · exact absurd h (by simp)
    · simp only [Except.ok.injEq, Prod.mk.injEq] at h
      by_cases hd : s.getD (decide (0 < r.byes)) = true
      · right
        rw [← h.1]
        simp [hd]
      · left
        rw [← h.1]
        simp [hd]

theorem registered_complete {t : Tournament} (h : Registered t) :
    t.complete = false := by
  induction h with
  | init => rfl
  | addAlbum n x _ ih => exact ih
  | addRound rn re rb _ heq ih =>
    rw [Tournament.addRound] at heq
    split at heq
    · simp only [Except.ok.injEq] at heq
      subst heq
      exact ih
    · exact absurd heq (by simp)
  | setName n _ ih => exact ih
  | setParameters sp sd _ ih => exact ih

theorem beginRound_cases {t t' : Tournament} (h : t.beginRound = .ok t') :
    (t.rounds.length ≤ t.currentRound ∧ t' = { t with complete := true }) ∨
    (t.currentRound < t.rounds.length ∧
     t'.currentRound = t.currentRound ∧ t'.complete = t.complete ∧
     t'.ratings = t.ratings ∧ t'.rounds.length = t.rounds.length ∧
     (t'.albums = t.albums ∨ t'.albums = sortBySeed t.albums)) := by
  rw [Tournament.beginRound] at h
  split at h
  case isTrue hle =>
    left
    simp only [Except.ok.injEq] at h
    exact ⟨hle, h.symm⟩
  case isFalse hlt =>
    right
    refine ⟨by omega, ?_⟩
    simp only [] at h
    split at h
    · exact absurd h (by simp)
    · rename_i entries heq
      split at h
      · exact absurd h (by simp)
      · rename_i p es r2 hpair
        simp only [Except.ok.injEq] at h
        subst h
        refine ⟨rfl, rfl, rfl, by simp, ?_⟩
        by_cases hc : t.currentRound = 0
        · rw [if_pos hc] at heq
          simp only [Except.ok.injEq] at heq
          subst heq
          simp only [hc, if_pos]
          exact pair_entries_cases hpair
        · rw [if_neg hc]
          left
          rfl

theorem winners_length_of_finished {r : Round} (h : r.isFinished = true) :
    r.winners.length = r.matchups.length := by
  rw [Round.isFinished, Bool.and_eq_true, List.all_eq_true] at h
  exact length_filterMap_isSome _ _ h.2

theorem addResult_run {t t' : Tournament} {w l : Album}
    (h : t.addResult w l = .ok t') :
    ∃ idx m' ratings',
      t.currentRound < t.rounds.length ∧
      (t.rounds.getD t.currentRound default).matchups.findIdx?
          (fun m => m.isMatch w l) = some idx ∧
      ((t.rounds.getD t.currentRound default).matchups.getD idx default).setWinner
          t.spread t.speed w t.ratings = .ok (m', ratings') ∧
      (let r' : Round := { t.rounds.getD t.currentRound default with
          matchups := (t.rounds.getD t.currentRound default).matchups.set idx m' }
       let t2 : Tournament := { t with
          rounds := t.rounds.set t.currentRound r',
          ratings := ratings' }
       (r'.isFinished = false ∧ t' = t2) ∨
       (r'.isFinished = true ∧
         Tournament.beginRound { t2 with currentRound := t.currentRound + 1 } = .ok t')) := by
  rw [Tournament.addResult] at h
  split at h
  case isFalse => exact absurd h (by simp)
  case isTrue hc =>
    simp only [] at h
    split at h
    · exact absurd h (by simp)
    · rename_i idx hfind
      split at h
      · exact absurd h (by simp)
      · rename_i p m' ratings' hset
        refine ⟨idx, m', ratings', hc, hfind, hset, ?_⟩
        split at h
        case isTrue hfin =>
          right
          exact ⟨hfin, h⟩
        case isFalse hfin =>
          left
          simp only [Except.ok.injEq] at h
          exact ⟨by simpa using hfin, h.symm⟩

theorem seed_inv {t0 st : Tournament} (h0 : Registered t0) (h : t0.seed = .ok st) :
    SeededByPosition st.albums ∧
    (st.complete = true → st.rounds.length ≤ st.currentRound) := by
  rw [Tournament.seed] at h
  have hsp : SeededByPosition (assignSeeds 1 (List.insertionSort
      (fun x y : Album => t0.ratings y.name ≤ t0.ratings x.name) t0.albums)) :=
    seededByPosition_assignSeeds _
  rcases beginRound_cases h with ⟨hle, rfl⟩ | ⟨hlt, hcr, hcomp, _, hlen, halb⟩
  · exact ⟨hsp, fun _ => by simpa using hle⟩
  · constructor
    · rcases halb with he | he
      · rw [he]
        exact hsp
      · rw [he, sortBySeed_of_seeded hsp]
        exact hsp
    · intro hcm
      rw [hcomp] at hcm
      exact absurd hcm (by simp [registered_complete h0])

theorem addResult_inv {t t' : Tournament} {w l : Album}
    (h : t.addResult w l = .ok t')
    (ih : SeededByPosition t.albums ∧
      (t.complete = true → t.rounds.length ≤ t.currentRound)) :
    SeededByPosition t'.albums ∧
    (t'.complete = true → t'.rounds.length ≤ t'.currentRound) := by
  obtain ⟨idx, m', ratings', hc, _, _, hrest⟩ := addResult_run h
  rcases hrest with ⟨_, rfl⟩ | ⟨_, hbeg⟩
  · exact ⟨ih.1, fun hcm => absurd (ih.2 hcm) (by omega)⟩
  · rcases beginRound_cases hbeg with ⟨hle, rfl⟩ | ⟨hlt, hcr, hcomp, _, hlen, halb⟩
    · refine ⟨ih.1, fun _ => ?_⟩
      simp only [List.length_set] at hle ⊢
      exact hle
    · constructor
      · rcases halb with he | he
        · rw [he]
          exact ih.1
        · rw [he, sortBySeed_of_seeded ih.1]
          exact ih.1
      · intro hcm
        rw [hcomp] at hcm
        exact absurd (ih.2 hcm) (by omega)

theorem reachable_inv {t : Tournament} (hr : Reachable t) :
    SeededByPosition t.albums ∧
    (t.complete = true → t.rounds.length ≤ t.currentRound) := by
  induction hr with
  | seeded h0 h => exact seed_inv h0 h
  | step w l _ h ih => exact addResult_inv h ih

/-! ### Theorems -/

/-- Claim C1: for every round whose pairing precondition holds (entrant
list of length exactly `size`, `byes ≤ size`, `size - byes` even, the
round not yet paired and match list empty as at construction),
`pair` produces exactly `byes` bye matches for positions
`0 .. byes - 1` in the chosen order, followed by `(size-byes)/2` fold
matches pairing position `byes + i` against position `size - i - 1`,
and every supplied entrant appears in exactly one match. -/
theorem c1_pair_matches (r : Round) (entries : List Album) (sortArg : Option Bool)
    (hp : r.paired = false) (hm : r.matchups = [])
    (hlen : entries.length = r.size) (hb : r.byes ≤ r.size)
    (hpar : (r.size - r.byes) % 2 = 0) :
    PairSpec r entries sortArg := by
  unfold PairSpec
  set es := if sortArg.getD (decide (0 < r.byes)) then sortBySeed entries else entries
    with hes
  have hes_len : es.length = r.size := by
    rw [hes]
    by_cases hd : sortArg.getD (decide (0 < r.byes)) = true
    · simp [hd, sortBySeed, List.length_insertionSort, hlen]
    · simp [hd, hlen]
  have hes_perm : es.Perm entries := by
    rw [hes]
    by_cases hd : sortArg.getD (decide (0 < r.byes)) = true
    · simpa [hd, sortBySeed] using List.perm_insertionSort _ entries
    · simp [hd]
  set B := r.byes with hB
  set H := (r.size - r.byes) / 2 with hH
  have hsz : r.size = B + 2 * H := by omega
  have hpair : r.pair entries sortArg =
      .ok (es, { r with
        matchups := (r.matchups ++
          (((List.range B).map (fun i => Match.create (es.getD i default) none)) ++
           ((List.range H).map (fun i =>
              Match.create (es.getD (B + i) default)
                (some (es.getD (r.size - i - 1) default)))))),
        paired := true }) := by
    rw [Round.pair, if_neg (by simp [hp]), if_neg (by simp [hlen])]
  refine ⟨_, hpair, ?_, ?_, ?_, ?_⟩
  · simp [hm]
  · intro i hi
    have hlt : i < (((List.range B).map fun i =>
        Match.create (es.getD i default) none)).length := by simpa using hi
    simp only [hm, List.nil_append]
    rw [List.getD_eq_getElem _ _ (by simp; omega)]
    rw [List.getElem_append_left hlt]
    simp
  · intro i hi
    simp only [hm, List.nil_append]
    have hge : (((List.range B).map fun i =>
        Match.create (es.getD i default) none)).length ≤ B + i := by simp
    rw [List.getD_eq_getElem _ _ (by simp; omega)]
    rw [List.getElem_append_right hge]
    simp
  · simp only [hm, List.nil_append, List.flatMap_append]
    have hbye : (((List.range B).map fun i =>
        Match.create (es.getD i default) none).flatMap Match.members) =
        es.take B := by
      rw [List.flatMap_map]
      have hfn : (fun a => (Match.create (es.getD a default) none).members) =
          fun a => [es.getD a default] := by
        funext i
        simp [Match.members, Match.create]
      rw [hfn, flatMap_single]
      exact map_getD_range_eq_take es default B (by omega)
    have hfold : (((List.range H).map fun i =>
        Match.create (es.getD (B + i) default)
          (some (es.getD (r.size - i - 1) default))).flatMap Match.members).Perm
        ((es.drop B).take H ++ (es.drop (B + H)).reverse) := by
      rw [List.flatMap_map]
      have hfn : (fun a => (Match.create (es.getD (B + a) default)
          (some (es.getD (r.size - a - 1) default))).members) =
          fun a => [es.getD (B + a) default, es.getD (r.size - a - 1) default] := by
        funext i
        simp [Match.members, Match.create]
      rw [hfn]
      refine (flatMap_pair_perm H _ _).trans ?_
      rw [map_getD_range_add es default B H (by omega)]
      rw [map_getD_range_rev es default B H r.size hes_len hsz]
    rw [hbye]
    refine List.Perm.trans (hfold.append_left (es.take B)) ?_
    refine List.Perm.trans ?_ hes_perm
    have hrev : ((es.drop (B + H)).reverse).Perm ((es.drop B).drop H) := by
      rw [List.drop_drop]
      exact List.reverse_perm _
    refine List.Perm.trans ((hrev.append_left _).append_left _) ?_
    rw [List.take_append_drop, List.take_append_drop]

/-- Claim C3: for all ratings and parameters with `spread ≠ 0`, the
rating update follows the spec's formula; in particular, for
`w = l = 1000`, `spread = 1`, `speed = 0.2`, both expected scores are
`0.5` and the new ratings are `(1000.1, 999.9)`. -/
theorem c3_elo_update (w l spread speed : ℝ) (_hs : spread ≠ 0) :
    eloFormula spread speed w l ∧
    (2 : ℝ) ^ ((1000 : ℝ) / 1) /
      ((2 : ℝ) ^ ((1000 : ℝ) / 1) + (2 : ℝ) ^ ((1000 : ℝ) / 1)) = 1 / 2 ∧
    eloRate 1 0.2 1000 1000 = (1000.1, 999.9) := by
  have hq : (0 : ℝ) < (2 : ℝ) ^ ((1000 : ℝ) / 1) :=
    Real.rpow_pos_of_pos two_pos _
  have hE : (2 : ℝ) ^ ((1000 : ℝ) / 1) /
      ((2 : ℝ) ^ ((1000 : ℝ) / 1) + (2 : ℝ) ^ ((1000 : ℝ) / 1)) = 1 / 2 := by
    rw [div_eq_div_iff (by positivity) (by norm_num)]
    ring
  refine ⟨rfl, hE, ?_⟩
  simp only [eloRate, hE]
  norm_num

/-- Witness for C3 at `w = l = 1000`, `spread = 1`, `speed = 0.2`. -/
theorem c3_elo_update_witness :
    (1 : ℝ) ≠ 0 ∧
    (eloFormula 1 0.2 1000 1000 ∧
     (2 : ℝ) ^ ((1000 : ℝ) / 1) /
       ((2 : ℝ) ^ ((1000 : ℝ) / 1) + (2 : ℝ) ^ ((1000 : ℝ) / 1)) = 1 / 2 ∧
     eloRate 1 0.2 1000 1000 = (1000.1, 999.9)) :=
  ⟨one_ne_zero, c3_elo_update 1000 1000 1 0.2 one_ne_zero⟩

/-- Claim C8: over exact real arithmetic the rating update is exactly
zero-sum: the new ratings sum to the old ratings' sum. -/
theorem c8_zero_sum (w l spread speed : ℝ) (_hs : spread ≠ 0) :
    (eloRate spread speed w l).1 + (eloRate spread speed w l).2 = w + l := by
  have hx : (0 : ℝ) < (2 : ℝ) ^ (w / spread) := Real.rpow_pos_of_pos two_pos _
  have hy : (0 : ℝ) < (2 : ℝ) ^ (l / spread) := Real.rpow_pos_of_pos two_pos _
  have hxy : (2 : ℝ) ^ (w / spread) + (2 : ℝ) ^ (l / spread) ≠ 0 := by positivity
  simp only [eloRate]
  field_simp
  ring

/-- Witness for C8 at `w = 1000`, `l = 900`, `spread = 1`, `speed = 0.2`. -/
theorem c8_zero_sum_witness :
    (1 : ℝ) ≠ 0 ∧
    (eloRate 1 0.2 1000 900).1 + (eloRate 1 0.2 1000 900).2 = 1000 + 900 :=
  ⟨one_ne_zero, c8_zero_sum 1000 900 1 0.2 one_ne_zero⟩

/-- Witness for C1: a fresh round of size 4 with 2 byes, paired from a
scrambled 4-entrant list. -/
theorem c1_pair_matches_witness :
    (roundW1.paired = false ∧ roundW1.matchups = [] ∧
     entriesW1.length = roundW1.size ∧ roundW1.byes ≤ roundW1.size ∧
     (roundW1.size - roundW1.byes) % 2 = 0) ∧
    PairSpec roundW1 entriesW1 none :=
  ⟨⟨rfl, rfl, rfl, by decide, by decide⟩,
   c1_pair_matches roundW1 entriesW1 none rfl rfl rfl (by decide) (by decide)⟩

/-- Claim C5: a round with byes, paired without an explicit sort
argument, first sorts the entrants by ascending seed (same result as an
explicit sort request), so the byes go to the best-seeded entrants; for
size 5 with 1 bye and entrants seeded 1..5, seed 1 gets the bye and the
rest fold-pair as (2,5) and (3,4). -/
theorem c5_default_seed_sort (r : Round) (entries : List Album)
    (hb : 0 < r.byes) (hp : r.paired = false) (hm : r.matchups = [])
    (hlen : entries.length = r.size) :
    r.pair entries none = r.pair entries (some true) ∧
    (∃ r' : Round, r.pair entries none = .ok (sortBySeed entries, r') ∧
      ∀ i, i < r.byes →
        (r'.matchups.getD i default).a = (sortBySeed entries).getD i default ∧
        (r'.matchups.getD i default).b = none) ∧
    Round.pair ⟨"semi", 5, 1, [], false⟩ [albumC, albumA, albumD, albumE, albumB] none =
      .ok ([albumA, albumB, albumC, albumD, albumE],
        ⟨"semi", 5, 1,
          [Match.create albumA none,
           Match.create albumB (some albumE),
           Match.create albumC (some albumD)], true⟩) := by
  have hd : (none : Option Bool).getD (decide (0 < r.byes)) = true := by
    simp [hb]
  refine ⟨?_, ?_, ?_⟩
  · rw [Round.pair, Round.pair]
    rw [hd]
    rfl
  · have hpair : r.pair entries none =
        .ok (sortBySeed entries, { r with
          matchups := (r.matchups ++
            (((List.range r.byes).map
                (fun i => Match.create ((sortBySeed entries).getD i default) none)) ++
             ((List.range ((r.size - r.byes) / 2)).map
                (fun i => Match.create ((sortBySeed entries).getD (r.byes + i) default)
                  (some ((sortBySeed entries).getD (r.size - i - 1) default)))))),
          paired := true }) := by
      rw [Round.pair, if_neg (by simp [hp]), if_neg (by simp [hlen]), hd]
      simp
    refine ⟨_, hpair, ?_⟩
    intro i hi
    simp only [hm, List.nil_append]
    have hlt : i < (((List.range r.byes).map
        (fun i => Match.create ((sortBySeed entries).getD i default) none))).length := by
      simpa using hi
    rw [List.getD_eq_getElem _ _ (by simp; omega)]
    rw [List.getElem_append_left hlt]
    simp [Match.create]
  · rfl

/-- Witness for C5: the scrambled 5-entrant round from the claim. -/
theorem c5_default_seed_sort_witness :
    (0 < roundW1.byes ∧ roundW1.paired = false ∧ roundW1.matchups = [] ∧
     entriesW1.length = roundW1.size) ∧
    (roundW1.pair entriesW1 none = roundW1.pair entriesW1 (some true) ∧
     (∃ r' : Round, roundW1.pair entriesW1 none = .ok (sortBySeed entriesW1, r') ∧
       ∀ i, i < roundW1.byes →
         (r'.matchups.getD i default).a = (sortBySeed entriesW1).getD i default ∧
         (r'.matchups.getD i default).b = none) ∧
     Round.pair ⟨"semi", 5, 1, [], false⟩ [albumC, albumA, albumD, albumE, albumB] none =
       .ok ([albumA, albumB, albumC, albumD, albumE],
         ⟨"semi", 5, 1,
           [Match.create albumA none,
            Match.create albumB (some albumE),
            Match.create albumC (some albumD)], true⟩)) :=
  ⟨⟨by decide, rfl, rfl, rfl⟩,
   c5_default_seed_sort roundW1 entriesW1 (by decide) rfl rfl rfl⟩

/-- Claim C6: a match created with an absent second entrant is a bye:
its winner is immediately the sole entrant, no loser is set, and
pairing a round (which creates and thereby resolves its bye matches)
leaves every rating unchanged. -/
theorem c6_bye_no_rating_change (a : Album) (t t' : Tournament)
    (h : t.beginRound = .ok t') :
    (Match.create a none).winner = some a ∧
    (Match.create a none).loser = none ∧
    (Match.create a none).b = none ∧
    t'.ratings = t.ratings := by
  refine ⟨rfl, rfl, rfl, ?_⟩
  rw [Tournament.beginRound] at h
  split at h
  · simp only [Except.ok.injEq] at h
    subst h
    rfl
  · simp only [] at h
    split at h
    · exact absurd h (by simp)
    · split at h
      · exact absurd h (by simp)
      · simp only [Except.ok.injEq] at h
        subst h
        rfl

/-- Witness for C6: pairing a 1-entrant, 1-bye round as round 0. -/
theorem c6_bye_no_rating_change_witness :
    tW6.beginRound = .ok tW6' ∧
    ((Match.create albumA none).winner = some albumA ∧
     (Match.create albumA none).loser = none ∧
     (Match.create albumA none).b = none ∧
     tW6'.ratings = tW6.ratings) :=
  ⟨rfl, c6_bye_no_rating_change albumA tW6 tW6' rfl⟩

/-- Counterexample to C4 as stated: calling `setWinner` a second time on
the already-resolved non-bye match `mResolved` does not fail with
`AlreadyResolved`; it succeeds, and the winner's rating changes again
(here from `1000` to `1000.1`), so the rating update is re-applied. -/
theorem c4_counterexample :
    mResolved.setWinner 1 0.2 albumA ratW ≠ .error .AlreadyResolved ∧
    ((mResolved.setWinner 1 0.2 albumA ratW).toOption.getD default).2
      albumA.name = 1000.1 ∧
    ((1000.1 : ℝ) ≠ ratW albumA.name) := by
  have hq : (0 : ℝ) < (2 : ℝ) ^ ((1000 : ℝ) / 1) :=
    Real.rpow_pos_of_pos two_pos _
  have hE : (2 : ℝ) ^ ((1000 : ℝ) / 1) /
      ((2 : ℝ) ^ ((1000 : ℝ) / 1) + (2 : ℝ) ^ ((1000 : ℝ) / 1)) = 1 / 2 := by
    rw [div_eq_div_iff (by positivity) (by norm_num)]
    ring
  refine ⟨?_, ?_, ?_⟩
  · simp [Match.setWinner, mResolved, albumA, albumB]
  · simp only [Match.setWinner, mResolved, albumA, albumB]
    norm_num
    simp only [updateRatings, eloRate, ratW]
    norm_num [hE]
    simp [Except.toOption, Option.getD, updateRatings]
  · simp only [ratW]
    norm_num

/-- Claim C4 as amended: `setWinner` has no already-resolved guard.
Called again on a non-bye match whose winner and loser are already set,
with any reported winner that is an entrant of the match (either the
`a`-slot or the `b`-slot entrant, the latter reachable as a duplicate
result for a match resolved the other way), it succeeds and applies
the rating update once more to the current ratings. -/
theorem c4_no_already_resolved_guard (m : Match) (b' w w0 l0 : Album)
    (rt : String → ℝ) (spread speed : ℝ) (hb : m.b = some b')
    (_hw : m.winner = some w0) (_hl : m.loser = some l0)
    (hmem : w = m.a ∨ w = b') :
    (w = m.a → m.setWinner spread speed w rt =
      .ok ({ m with winner := some m.a, loser := some b' },
        updateRatings rt m.a.name b'.name
          (eloRate spread speed (rt m.a.name) (rt b'.name)).1
          (eloRate spread speed (rt m.a.name) (rt b'.name)).2)) ∧
    (w ≠ m.a → m.setWinner spread speed w rt =
      .ok ({ m with winner := some b', loser := some m.a },
        updateRatings rt b'.name m.a.name
          (eloRate spread speed (rt b'.name) (rt m.a.name)).1
          (eloRate spread speed (rt b'.name) (rt m.a.name)).2)) := by
  constructor
  · intro hwa
    subst hwa
    rw [Match.setWinner, if_pos rfl, hb]
  · intro hwa
    have hwb : w = b' := hmem.resolve_left hwa
    subst hwb
    rw [Match.setWinner, if_neg hwa, hb, if_pos rfl]

/-- Witness for the amended C4 at the concrete resolved match, applied
once with the `b`-slot entrant as reported winner and once with the
`a`-slot entrant. -/
theorem c4_no_already_resolved_guard_witness :
    (mResolved.b = some albumB ∧ mResolved.winner = some albumA ∧
     mResolved.loser = some albumB ∧
     (albumB = mResolved.a ∨ albumB = albumB) ∧
     (albumA = mResolved.a ∨ albumA = albumB)) ∧
    ((albumB = mResolved.a → mResolved.setWinner 1 0.2 albumB ratW =
      .ok ({ mResolved with winner := some mResolved.a, loser := some albumB },
        updateRatings ratW mResolved.a.name albumB.name
          (eloRate 1 0.2 (ratW mResolved.a.name) (ratW albumB.name)).1
          (eloRate 1 0.2 (ratW mResolved.a.name) (ratW albumB.name)).2)) ∧
     (albumB ≠ mResolved.a → mResolved.setWinner 1 0.2 albumB ratW =
      .ok ({ mResolved with winner := some albumB, loser := some mResolved.a },
        updateRatings ratW albumB.name mResolved.a.name
          (eloRate 1 0.2 (ratW albumB.name) (ratW mResolved.a.name)).1
          (eloRate 1 0.2 (ratW albumB.name) (ratW mResolved.a.name)).2))) ∧
    ((albumA = mResolved.a → mResolved.setWinner 1 0.2 albumA ratW =
      .ok ({ mResolved with winner := some mResolved.a, loser := some albumB },
        updateRatings ratW mResolved.a.name albumB.name
          (eloRate 1 0.2 (ratW mResolved.a.name) (ratW albumB.name)).1
          (eloRate 1 0.2 (ratW mResolved.a.name) (ratW albumB.name)).2)) ∧
     (albumA ≠ mResolved.a → mResolved.setWinner 1 0.2 albumA ratW =
      .ok ({ mResolved with winner := some albumB, loser := some mResolved.a },
        updateRatings ratW albumB.name mResolved.a.name
          (eloRate 1 0.2 (ratW albumB.name) (ratW mResolved.a.name)).1
          (eloRate 1 0.2 (ratW albumB.name) (ratW mResolved.a.name)).2))) :=
  ⟨⟨rfl, rfl, rfl, Or.inr rfl, Or.inl rfl⟩,
   c4_no_already_resolved_guard mResolved albumB albumB albumA albumB ratW 1 0.2
     rfl rfl rfl (Or.inr rfl),
   c4_no_already_resolved_guard mResolved albumB albumA albumA albumB ratW 1 0.2
     rfl rfl rfl (Or.inl rfl)⟩

/-- Claim C10: in every reachable tournament state (from the moment
`seed()` returns, preserved by every operation including the in-place
re-sort of the shared album list at round-0 pairing), the album list is
sorted by ascending seed with the album at index `i` holding seed
`i + 1`; in particular re-sorting it by seed is the identity, which is
what makes the seed-indexed lookup correct. -/
theorem c10_seed_position_invariant (t : Tournament) (hr : Reachable t) :
    SeededByPosition t.albums ∧ sortBySeed t.albums = t.albums :=
  ⟨(reachable_inv hr).1, sortBySeed_of_seeded (reachable_inv hr).1⟩

/-- Witness for C10: the reachable one-album seeded tournament `tW10`. -/
theorem c10_seed_position_invariant_witness :
    Reachable tW10 ∧
    (SeededByPosition tW10.albums ∧ sortBySeed tW10.albums = tW10.albums) :=
  ⟨@Reachable.seeded tReg10 tW10
      (@Registered.addRound (Tournament.init.addAlbum "Abbey Road" 1000) tReg10
        "final" 1 1 (Registered.addAlbum "Abbey Road" 1000 Registered.init) rfl)
      rfl,
   c10_seed_position_invariant tW10
     (@Reachable.seeded tReg10 tW10
       (@Registered.addRound (Tournament.init.addAlbum "Abbey Road" 1000) tReg10
         "final" 1 1 (Registered.addAlbum "Abbey Road" 1000 Registered.init) rfl)
       rfl)⟩

/-- Claim C9: on a seeded (reachable) tournament, for a seed `s` in
`1..N`, `lookupEntrant` returns the album stored at seed position `s`
when its name matches, and fails with `SeedNameMismatch` when the
stored album's name differs. -/
theorem c9_lookup_entrant (t : Tournament) (hr : Reachable t) (s : Nat)
    (nm : String) (h1 : 1 ≤ s) (h2 : s ≤ t.albums.length) :
    ((t.albums.getD (s - 1) default).name = nm →
      t.findAlbum nm s = .ok (t.albums.getD (s - 1) default)) ∧
    ((t.albums.getD (s - 1) default).name ≠ nm →
      t.findAlbum nm s = .error .SeedNameMismatch) := by
  have hseed : (t.albums.getD (s - 1) default).seed = s := by
    have hs := (reachable_inv hr).1 (s - 1) (by omega)
    omega
  constructor
  · intro hn
    rw [Tournament.findAlbum, if_pos (by omega), if_pos hseed, if_pos hn]
  · intro hn
    rw [Tournament.findAlbum, if_pos (by omega), if_pos hseed, if_neg hn]

/-- Witness for C9: looking up seed 1 in `tW10`, by its right name and
by a wrong name. -/
theorem c9_lookup_entrant_witness :
    (Reachable tW10 ∧ 1 ≤ 1 ∧ 1 ≤ tW10.albums.length) ∧
    (((tW10.albums.getD 0 default).name = "Abbey Road" →
       tW10.findAlbum "Abbey Road" 1 = .ok (tW10.albums.getD 0 default)) ∧
     ((tW10.albums.getD 0 default).name ≠ "Blue" →
       tW10.findAlbum "Blue" 1 = .error .SeedNameMismatch)) := by
  have hreach : Reachable tW10 :=
    @Reachable.seeded tReg10 tW10
      (@Registered.addRound (Tournament.init.addAlbum "Abbey Road" 1000) tReg10
        "final" 1 1 (Registered.addAlbum "Abbey Road" 1000 Registered.init) rfl)
      rfl
  have hmain := c9_lookup_entrant tW10 hreach 1 "Abbey Road" le_rfl (by rfl)
  have hmain2 := c9_lookup_entrant tW10 hreach 1 "Blue" le_rfl (by rfl)
  exact ⟨⟨hreach, le_rfl, by rfl⟩, hmain.1, hmain2.2⟩

/-- Claim C7: once a tournament is complete (its last round finished),
`pickPendingMatch` returns `none` and every `addResult` call fails with
`TournamentComplete` (returning an error, so the state is unchanged). -/
theorem c7_complete_rejects_results (t : Tournament) (hr : Reachable t)
    (hc : t.complete = true) :
    (∀ k, t.pickMatchup k = .ok none) ∧
    (∀ w l, t.addResult w l = .error .TournamentComplete) := by
  have hlen := (reachable_inv hr).2 hc
  constructor
  · intro k
    rw [Tournament.pickMatchup, if_pos hc]
  · intro w l
    rw [Tournament.addResult, if_neg (by omega)]

/-- Witness for C7: the reachable, immediately-complete tournament
`tCW` (no rounds). -/
theorem c7_complete_rejects_results_witness :
    (Reachable tCW ∧ tCW.complete = true) ∧
    ((∀ k, tCW.pickMatchup k = .ok none) ∧
     (∀ w l, tCW.addResult w l = .error .TournamentComplete)) := by
  have hreach : Reachable tCW :=
    @Reachable.seeded tRegC tCW (Registered.addAlbum "Blue" 900 Registered.init) rfl
  exact ⟨⟨hreach, rfl⟩, c7_complete_rejects_results tCW hreach rfl⟩

/-- Claim C2: on every successful `addResult`, the tournament advances
per the spec: no round index change or new pairing while the current
round is unfinished; once it finishes, the index increments and the
next round (if any) is paired exactly from the finished round's ordered
winners list (one winner per match, byes included); if the finished
round was the last, the complete flag becomes true. -/
theorem c2_round_advancement (t : Tournament) (w l : Album) (t' : Tournament)
    (h : t.addResult w l = .ok t') : AdvanceSpec t t' := by
  obtain ⟨idx, m', ratings', hc, hfind, hset, hrest⟩ := addResult_run h
  simp only [] at hrest
  rcases hrest with ⟨hfin, heq⟩ | ⟨hfin, hbeg⟩
  · subst heq
    constructor
    · intro _
      refine ⟨rfl, rfl, rfl, fun j hj => ?_⟩
      exact getD_set_ne _ _ _ _ _ hj.symm
    · intro hfin2
      rw [getD_set_eq _ _ _ _ hc] at hfin2
      rw [hfin] at hfin2
      exact Bool.noConfusion hfin2
  · rw [Tournament.beginRound] at hbeg
    split at hbeg
    case isTrue hle =>
      simp only [Except.ok.injEq] at hbeg
      subst hbeg
      constructor
      · intro hfin2
        rw [getD_set_eq _ _ _ _ hc] at hfin2
        rw [hfin] at hfin2
        exact Bool.noConfusion hfin2
      · intro _
        refine ⟨rfl, fun _ => rfl, fun hlt => ?_⟩
        exfalso
        simp only [List.length_set] at hle
        omega
    case isFalse hgt =>
      simp only [] at hbeg
      rw [if_neg (Nat.succ_ne_zero t.currentRound)] at hbeg
      rw [Nat.add_sub_cancel] at hbeg
      rw [getD_set_eq _ _ _ _ hc] at hbeg
      rw [if_pos hfin] at hbeg
      split at hbeg
      · exact absurd hbeg (by simp)
      · rename_i entries2 hprev
        injection hprev with hprev
        split at hbeg
        · exact absurd hbeg (by simp)
        · rename_i es2 R2 hpair
          injection hbeg with hbeg
          subst hbeg
          subst hprev
          constructor
          · intro hfin2
            rw [getD_set_ne _ _ _ _ _ (by omega), getD_set_eq _ _ _ _ hc] at hfin2
            rw [hfin] at hfin2
            exact Bool.noConfusion hfin2
          · intro _
            refine ⟨rfl, fun hle2 => ?_, fun hlt => ?_⟩
            · exfalso
              simp only [List.length_set] at hgt
              omega
            · refine ⟨rfl, ?_, ?_⟩
              · rw [getD_set_ne _ _ _ _ _ (by omega), getD_set_eq _ _ _ _ hc]
                exact winners_length_of_finished hfin
              · refine ⟨es2, R2, ?_, ?_⟩
                · rw [getD_set_ne _ _ _ _ _ (by omega), getD_set_eq _ _ _ _ hc]
                  rwa [getD_set_ne _ _ _ _ _ (by omega)] at hpair
                · refine getD_set_eq _ _ _ _ ?_
                  simp only [List.length_set]
                  simp only [List.length_set] at hgt
                  omega

/-- Witness for C2: recording the result of the pending semifinal match
in `tPlay` finishes round 0 and pairs the final from its winners. -/
theorem c2_round_advancement_witness :
    tPlay.addResult albumA albumB = .ok tPlay' ∧ AdvanceSpec tPlay tPlay' :=
  ⟨rfl, c2_round_advancement tPlay albumA albumB tPlay' rfl⟩

end Tourney
